import Mathlib

namespace ChatCore

/-- A JavaScript word character, the `\w` character class: `[a-zA-Z0-9_]`. -/
def isWordChar (c : Char) : Bool :=
  c.isAlpha || c.isDigit || c == '_'

/-- A character allowed inside a mention username: `[a-zA-Z0-9._-]`. -/
def isUsernameChar (c : Char) : Bool :=
  c.isAlpha || c.isDigit || c == '.' || c == '_' || c == '-'

/-- Trailing punctuation stripped by the extractor: `[.,!?;:]`. -/
def isTrailingPunct (c : Char) : Bool :=
  c == '.' || c == ',' || c == '!' || c == '?' || c == ';' || c == ':'

/-- Whether the head of a character list is a letter. -/
def headIsAlpha : List Char → Bool
  | [] => false
  | c :: _ => c.isAlpha

/-- Whether the head of a character list is a word character. -/
def headIsWord : List Char → Bool
  | [] => false
  | c :: _ => isWordChar c

/-- Whether the character before the current position (if any) is not a word
character: the lookbehind of the library regex. -/
def prevOk : Option Char → Bool
  | none => true
  | some p => !isWordChar p

/-- One left-to-right pass of `matchAll` with the library regex of
src/lib/mentions.ts, which captures a maximal run of username characters after
an at sign that is not preceded by a word character and is followed by a
letter.  `prev` is the character just before the current position; `fuel`
bounds the recursion and one character is consumed per step, so `fuel =
l.length` suffices. -/
def scanLibGo (fuel : Nat) (prev : Option Char) (l : List Char) :
    List (List Char) :=
  match fuel, l with
  | 0, _ => []
  | _, [] => []
  | fuel + 1, c :: cs =>
    if c == '@' && prevOk prev && headIsAlpha cs then
      let run := cs.takeWhile isUsernameChar
      run :: scanLibGo fuel (some (run.getLastD c)) (cs.dropWhile isUsernameChar)
    else
      scanLibGo fuel (some c) cs

/-- All capture groups of the library mention regex over a character list. -/
def scanLib (l : List Char) : List (List Char) :=
  scanLibGo l.length none l

/-- The trailing-punctuation stripping loop of `extractMentions`. -/
def stripTrailing (l : List Char) : List Char :=
  (l.reverse.dropWhile isTrailingPunct).reverse

/-- Cleaning and validation of one captured run: strip trailing punctuation,
then discard unless the length is between 2 and 50. -/
def cleanToken (l : List Char) : Option String :=
  let s := stripTrailing l
  if 2 ≤ s.length ∧ s.length ≤ 50 then some (String.mk s) else none

/-- Spread of a JavaScript `Set` built from a list: deduplication keeping the
first occurrence of each element, preserving order.  Again `fuel = l.length`
suffices, since the list shrinks at every step. -/
def dedupFirstGo (fuel : Nat) (l : List String) : List String :=
  match fuel, l with
  | 0, _ => []
  | _, [] => []
  | fuel + 1, x :: xs => x :: dedupFirstGo fuel (xs.filter (fun y => !(y == x)))

/-- Order-preserving first-occurrence deduplication. -/
def dedupFirst (l : List String) : List String :=
  dedupFirstGo l.length l

/-- Function `extractMentions` from src/lib/mentions.ts: regex scan, trailing-punctuation
strip, length validation in 2..50, deduplication. -/
def extractMentions (text : String) : List String :=
  dedupFirst ((scanLib text.data).filterMap cleanToken)

/-- One left-to-right pass of the notification dispatcher's own regex, which
captures a maximal nonempty run of word characters after every at sign,
with no lookbehind and no charset beyond word characters. -/
def scanDispGo (fuel : Nat) (l : List Char) : List (List Char) :=
  match fuel, l with
  | 0, _ => []
  | _, [] => []
  | fuel + 1, c :: cs =>
    if c == '@' && headIsWord cs then
      cs.takeWhile isWordChar :: scanDispGo fuel (cs.dropWhile isWordChar)
    else
      scanDispGo fuel cs

/-- All capture groups of the dispatcher's mention regex over a character
list. -/
def scanDisp (l : List Char) : List (List Char) :=
  scanDispGo l.length l

/-- The notification dispatcher's private `extractMentions`: match the
dispatcher regex, collect the captures, deduplicate.  No length bounds and no
punctuation stripping are applied. -/
def extractMentionsDisp (messageBody : String) : List String :=
  dedupFirst ((scanDisp messageBody.data).map String.mk)


/-- The tri-state of a channel-level preference field. -/
inductive TriState
  | inherit
  | enabled
  | disabled
deriving DecidableEq, BEq, Repr

/-- Quiet-hours window of the global preferences, with times kept as the
stored strings in HH:mm form, exactly as in convex/schema.ts. -/
structure QuietHours where
  enabled : Bool
  startTime : String
  endTime : String
  timezone : String
deriving DecidableEq, BEq, Repr

/-- One entry of `channelPreferences` (convex/schema.ts).  `mutedUntil` is an
optional Unix timestamp; `none` models the field being absent. -/
structure ChannelPreference where
  channelId : Nat
  mentions : TriState
  allMessages : TriState
  threads : TriState
  keywords : List String
  mutedUntil : Option Int
deriving DecidableEq, BEq, Repr

/-- The `globalPreferences` object (convex/schema.ts). -/
structure GlobalPreferences where
  mentions : Bool
  directMessages : Bool
  sound : Bool
  desktop : Bool
  email : Bool
  mobile : Bool
  quietHours : QuietHours
deriving DecidableEq, BEq, Repr

/-- One `notificationPreferences` row, scoped to a (user, workspace) pair.
Document ids are modelled as naturals. -/
structure PreferenceRecord where
  userId : Nat
  workspaceId : Nat
  globalPreferences : GlobalPreferences
  channelPreferences : List ChannelPreference
deriving DecidableEq, BEq, Repr

/-- Function `createDefaultPreferences` from convex/members.ts. -/
def createDefaultPreferences (userId workspaceId : Nat) : PreferenceRecord :=
  { userId := userId
    workspaceId := workspaceId
    globalPreferences :=
      { mentions := true
        directMessages := true
        sound := true
        desktop := true
        email := false
        mobile := true
        quietHours :=
          { enabled := false
            startTime := "22:00"
            endTime := "08:00"
            timezone := "UTC" } }
    channelPreferences := [] }

/-- Split a character list at every occurrence of a separator character, the
behaviour of JavaScript `String.prototype.split` with a one-character
separator. -/
def splitOnCharGo (sep : Char) (acc : List Char) : List Char → List (List Char)
  | [] => [acc.reverse]
  | c :: cs =>
    if c == sep then acc.reverse :: splitOnCharGo sep [] cs
    else splitOnCharGo sep (c :: acc) cs

/-- JavaScript `String.prototype.split` with a one-character separator. -/
def splitOnChar (sep : Char) (l : List Char) : List (List Char) :=
  splitOnCharGo sep [] l

/-- Numeric value of a decimal digit character. -/
def digitVal (c : Char) : Nat :=
  c.toNat - '0'.toNat

/-- JavaScript `Number` or `parseInt` on a string of decimal digits. -/
def digitsToNat (l : List Char) : Nat :=
  l.foldl (fun acc c => acc * 10 + digitVal c) 0

/-- The expression `time.split(0x3a).map(Number)` destructured into an (hour, minute) pair,
as done on `startTime` and `endTime` in convex/members.ts. -/
def parseHM (s : String) : Nat × Nat :=
  match splitOnChar ':' s.data with
  | h :: m :: _ => (digitsToNat h, digitsToNat m)
  | [h] => (digitsToNat h, 0)
  | [] => (0, 0)

/-- Function `isInQuietHours` from convex/members.ts.  The source reads the current
UTC hour and minute from the system clock; here the clock is injected as
`currentTime`, the current minute-of-day (hour * 60 + minute). -/
def isInQuietHours (quietHours : QuietHours) (currentTime : Nat) : Bool :=
  if !quietHours.enabled then false
  else
    let st := parseHM quietHours.startTime
    let et := parseHM quietHours.endTime
    let startTime := st.1 * 60 + st.2
    let endTime := et.1 * 60 + et.2
    if startTime > endTime then
      decide (currentTime ≥ startTime) || decide (currentTime < endTime)
    else
      decide (currentTime ≥ startTime) && decide (currentTime < endTime)

/-- Function `shouldSendMentionNotification` from convex/members.ts: channel tri-state
override with fallthrough to the global mentions flag. -/
def shouldSendMentionNotification (prefs : PreferenceRecord)
    (channelId : Option Nat) : Bool :=
  match channelId with
  | some cid =>
    match prefs.channelPreferences.find? (fun cp => cp.channelId == cid) with
    | some channelPref =>
      match channelPref.mentions with
      | .enabled => true
      | .disabled => false
      | .inherit => prefs.globalPreferences.mentions
    | none => prefs.globalPreferences.mentions
  | none => prefs.globalPreferences.mentions

/-- Function `shouldSendAllMessagesNotification` from convex/members.ts. -/
def shouldSendAllMessagesNotification (prefs : PreferenceRecord)
    (channelId : Option Nat) : Bool :=
  match channelId with
  | some cid =>
    match prefs.channelPreferences.find? (fun cp => cp.channelId == cid) with
    | some channelPref =>
      match channelPref.allMessages with
      | .enabled => true
      | .disabled => false
      | .inherit => false
    | none => false
  | none => false

/-- The three notification categories of the preference evaluator. -/
inductive NotificationType
  | mention
  | direct_message
  | all_messages
deriving DecidableEq, BEq, Repr

/-- JavaScript truthiness test of `mutedUntil && mutedUntil > now`:
an absent field and the (falsy) timestamp 0 never count as muted. -/
def muteActive (mutedUntil : Option Int) (nowMs : Int) : Bool :=
  match mutedUntil with
  | some t => !(t == 0) && decide (t > nowMs)
  | none => false

/-- The handler of the `shouldSendNotification` query from convex/members.ts.
The stored preferences (or `none` when no row exists) and the clock are
injected: `nowMs` is `Date.now()` and `currentTime` the current UTC
minute-of-day.  Quiet hours are checked first, then the channel mute, then
the per-category decision. -/
def shouldSendNotification (preferences : Option PreferenceRecord)
    (userId workspaceId : Nat) (channelId : Option Nat)
    (notificationType : NotificationType) (nowMs : Int)
    (currentTime : Nat) : Bool :=
  let prefs := preferences.getD (createDefaultPreferences userId workspaceId)
  if isInQuietHours prefs.globalPreferences.quietHours currentTime then false
  else
    let channelMuted : Bool :=
      match channelId with
      | some cid =>
        match prefs.channelPreferences.find? (fun cp => cp.channelId == cid) with
        | some channelPref => muteActive channelPref.mutedUntil nowMs
        | none => false
      | none => false
    if channelMuted then false
    else
      match notificationType with
      | .mention => shouldSendMentionNotification prefs channelId
      | .direct_message => prefs.globalPreferences.directMessages
      | .all_messages => shouldSendAllMessagesNotification prefs channelId

/-- Function `checkNotificationPreferences` from the messages module (the notification
dispatcher's own reimplementation of the preference check).  The stored
preferences and the clock are injected: `nowMs` is `Date.now()` and
`currentHour` the hour returned by `new Date().getHours()`.  The source uses
early returns; they are modelled by an `Option Bool` short-circuit value for
the channel-preference block.  Note the order: missing record allows, a false
global mentions flag denies, then the channel block (mute, then the tri-state
override, where `enabled` returns allow at once), and only afterwards the
hour-granularity quiet-hours check. -/
def checkNotificationPreferences (preferences : Option PreferenceRecord)
    (channelId : Option Nat) (nowMs : Int) (currentHour : Nat) : Bool :=
  match preferences with
  | none => true
  | some prefs =>
    if !prefs.globalPreferences.mentions then false
    else
      let channelShortCircuit : Option Bool :=
        match channelId with
        | some cid =>
          match prefs.channelPreferences.find? (fun cp => cp.channelId == cid) with
          | some channelPref =>
            if muteActive channelPref.mutedUntil nowMs then some false
            else if channelPref.mentions == .disabled then some false
            else if channelPref.mentions == .enabled then some true
            else none
          | none => none
        | none => none
      match channelShortCircuit with
      | some b => b
      | none =>
        if prefs.globalPreferences.quietHours.enabled then
          let startHour := (parseHM prefs.globalPreferences.quietHours.startTime).1
          let endHour := (parseHM prefs.globalPreferences.quietHours.endTime).1
          if startHour < endHour then
            if currentHour ≥ startHour ∧ currentHour < endHour then false else true
          else
            if currentHour ≥ startHour ∨ currentHour < endHour then false else true
        else true

/-- A `users` document as consulted by the dispatcher: its id and the
optional `name` and `email` fields. -/
structure UserDoc where
  uid : Nat
  name : Option String
  email : Option String
deriving DecidableEq, BEq, Repr

/-- Loop body of `getMentionedUsers` from the messages module.  `users` is the list of
`ctx.db.get(member.userId)` results in workspace-membership iteration order
(`none` for a dangling reference).  A user is resolved when its `name` field
is present, nonempty (JavaScript truthiness) and *exactly* equal to one of
the extracted usernames. -/
def resolveOne (usernames : List String) : Option UserDoc → Option Nat
  | none => none
  | some user =>
    match user.name with
    | none => none
    | some nm =>
      if !(nm == "") && usernames.contains nm then some user.uid else none

/-- The full resolver: early return on an empty username list, then the
per-member loop collecting the ids of resolved users in iteration order. -/
def getMentionedUsers (users : List (Option UserDoc))
    (usernames : List String) : List Nat :=
  if usernames.isEmpty then []
  else users.filterMap (resolveOne usernames)

/-- A `notifications` row as inserted by the dispatcher. -/
structure Notification where
  userId : Nat
  messageId : Nat
  workspaceId : Nat
  channelId : Option Nat
  conversationId : Option Nat
  read : Bool
deriving DecidableEq, BEq, Repr

/-- The guard `authorUserId && userId === authorUserId` of the dispatcher
loop: true when an author id was passed and equals the recipient. -/
def isAuthor (author : Option Nat) (uid : Nat) : Bool :=
  match author with
  | some a => a == uid
  | none => false

/-- The per-recipient loop of `handleMentionNotifications`.  External database
calls may throw, which is modelled by the two injected failure oracles:
`prefFails uid` (the preference read throws for that recipient) and
`insertFails uid` (the notification insert throws).  `allow uid` is the
preference decision for the recipient and `mkNotif uid` the inserted row.
The loop body has no try/catch in the source, so a throw is modelled by the
whole computation returning `Except.error`, in which case the mutation rolls
back and no rows survive. -/
def processRecipients (author : Option Nat) (prefFails : Nat → Bool)
    (allow : Nat → Bool) (insertFails : Nat → Bool)
    (mkNotif : Nat → Notification) :
    List Nat → Except Unit (List Notification)
  | [] => .ok []
  | uid :: rest =>
    if isAuthor author uid then
      processRecipients author prefFails allow insertFails mkNotif rest
    else if prefFails uid then
      .error ()
    else if allow uid then
      if insertFails uid then .error ()
      else
        match processRecipients author prefFails allow insertFails mkNotif rest with
        | .ok ns => .ok (mkNotif uid :: ns)
        | .error e => .error e
    else
      processRecipients author prefFails allow insertFails mkNotif rest

/-- Function `handleMentionNotifications` from the messages module: extract mentions
with the dispatcher's own extractor, return at once when there are none,
resolve them against the workspace membership, then run the per-recipient
loop, where each recipient's decision is the dispatcher's own
`checkNotificationPreferences` over the injected preference store
`prefsOf`. -/
def handleMentionNotifications (messageId : Nat) (messageBody : String)
    (workspaceId : Nat) (channelId : Option Nat)
    (conversationId : Option Nat) (authorUserId : Option Nat)
    (users : List (Option UserDoc)) (prefsOf : Nat → Option PreferenceRecord)
    (nowMs : Int) (currentHour : Nat)
    (prefFails insertFails : Nat → Bool) : Except Unit (List Notification) :=
  let mentionedUsernames := extractMentionsDisp messageBody
  if mentionedUsernames.isEmpty then .ok []
  else
    processRecipients authorUserId prefFails
      (fun uid => checkNotificationPreferences (prefsOf uid) channelId nowMs currentHour)
      insertFails
      (fun uid =>
        { userId := uid
          messageId := messageId
          workspaceId := workspaceId
          channelId := channelId
          conversationId := conversationId
          read := false })
      (getMentionedUsers users mentionedUsernames)

/-- The `preferences` argument object of the `updateChannel` mutation
(convex/members.ts): every field optional; for `mutedUntil`, `none` models
the key being absent (`undefined`), `some none` models an explicit `null`,
and `some (some t)` a timestamp. -/
structure UpdateChannelArgs where
  mentions : Option TriState
  allMessages : Option TriState
  threads : Option TriState
  keywords : Option (List String)
  mutedUntil : Option (Option Int)
deriving DecidableEq, BEq, Repr

/-- The `channelUpdate` object built by `updateChannel`: absent tri-state and
keyword fields are replaced by fixed defaults via `||`, and the `mutedUntil`
key is added only when the argument is a real timestamp (an explicit `null`
adds no key). -/
def channelUpdateMutedUntil (args : UpdateChannelArgs) : Option Int :=
  match args.mutedUntil with
  | some (some t) => some t
  | _ => none

/-- The result of `{ ...channelPrefs[existingIndex], ...channelUpdate }` in
`updateChannel`: every key present in `channelUpdate` wins, and `mutedUntil`
survives from the existing entry exactly when `channelUpdate` carries no
`mutedUntil` key. -/
def applyChannelUpdate (existing : ChannelPreference) (cid : Nat)
    (args : UpdateChannelArgs) : ChannelPreference :=
  { channelId := cid
    mentions := args.mentions.getD .inherit
    allMessages := args.allMessages.getD .disabled
    threads := args.threads.getD .enabled
    keywords := args.keywords.getD []
    mutedUntil :=
      match args.mutedUntil with
      | some (some t) => some t
      | _ => existing.mutedUntil }

/-- The entry pushed by `updateChannel` when no entry for the channel
exists. -/
def newChannelEntry (cid : Nat) (args : UpdateChannelArgs) : ChannelPreference :=
  { channelId := cid
    mentions := args.mentions.getD .inherit
    allMessages := args.allMessages.getD .disabled
    threads := args.threads.getD .enabled
    keywords := args.keywords.getD []
    mutedUntil := channelUpdateMutedUntil args }

/-- The list manipulation of the `updateChannel` mutation: `findIndex` by
`channelId`, overwrite the first matching entry with the spread-merge, or
push a fresh entry at the end. -/
def updateChannelPrefs (cid : Nat) (args : UpdateChannelArgs) :
    List ChannelPreference → List ChannelPreference
  | [] => [newChannelEntry cid args]
  | cp :: rest =>
    if cp.channelId == cid then applyChannelUpdate cp cid args :: rest
    else cp :: updateChannelPrefs cid args rest

/-- Whitespace as recognised by `String.prototype.trim` on the ASCII range. -/
def trimList (l : List Char) : List Char :=
  ((l.dropWhile Char.isWhitespace).reverse.dropWhile Char.isWhitespace).reverse

/-- JavaScript `String.prototype.includes`: `isPrefixList needle hay` holds
when `needle` starts `hay`. -/
def isPrefixList : List Char → List Char → Bool
  | [], _ => true
  | _ :: _, [] => false
  | a :: as, b :: bs => a == b && isPrefixList as bs

/-- JavaScript `String.prototype.includes`: substring containment. -/
def isSubstrList (needle : List Char) : List Char → Bool
  | [] => needle.isEmpty
  | c :: cs => isPrefixList needle (c :: cs) || isSubstrList needle cs

/-- Lower-casing of a character list, `String.prototype.toLowerCase` on the
ASCII range. -/
def lowerList (l : List Char) : List Char :=
  l.map Char.toLower

/-- The match test of one loop iteration of `getByUsername`
(convex/members.ts): the lowered search term is looked for as a substring of
the user's lowered name, of the local part of the lowered email, and of the
whole lowered email. -/
def matchesSearch (searchTerm : List Char) (user : UserDoc) : Bool :=
  let name := lowerList (user.name.getD "").data
  let email := lowerList (user.email.getD "").data
  let emailUsername := ((splitOnChar '@' email).headD [])
  isSubstrList searchTerm name ||
    isSubstrList searchTerm emailUsername ||
    isSubstrList searchTerm email

/-- The collection loop of `getByUsername`: walk the membership in iteration
order, keep users matching the search term, and stop as soon as `limit`
matches were collected (dangling user references are skipped). -/
def collectMatches (searchTerm : List Char) (limit : Nat) :
    List (Option UserDoc) → List UserDoc
  | [] => []
  | userOpt :: rest =>
    if limit == 0 then []
    else
      match userOpt with
      | none => collectMatches searchTerm limit rest
      | some user =>
        if matchesSearch searchTerm user then
          user :: collectMatches searchTerm (limit - 1) rest
        else
          collectMatches searchTerm limit rest

/-- The handler of the `getByUsername` query (convex/members.ts) after
authentication: an unauthenticated caller or a caller who is not a member of
the workspace gets `[]`; a search term whose trim is shorter than one
character gets `[]`; otherwise the search term is lowered and trimmed, the
limit defaults to 10 when absent or 0 (JavaScript `args.limit || 10`), and
the membership is scanned. -/
def getByUsername (callerIsMember : Bool) (searchTerm : String)
    (limit : Option Nat) (users : List (Option UserDoc)) : List UserDoc :=
  if !callerIsMember then []
  else if (trimList searchTerm.data).length < 1 then []
  else
    let lim := match limit with
      | some n => if n == 0 then 10 else n
      | none => 10
    let term := lowerList (trimList searchTerm.data)
    collectMatches term lim users

theorem mem_of_mem_dedupFirstGo {u : String} :
    ∀ fuel l, u ∈ dedupFirstGo fuel l → u ∈ l := by
  intro fuel
  induction fuel with
  | zero => intro l h; simp [dedupFirstGo] at h
  | succ n ih =>
    intro l h
    cases l with
    | nil => simp [dedupFirstGo] at h
    | cons x xs =>
      simp only [dedupFirstGo, List.mem_cons] at h ⊢
      rcases h with h | h
      · exact .inl h
      · exact .inr (List.mem_of_mem_filter (ih _ h))

theorem nodup_dedupFirstGo : ∀ fuel l, (dedupFirstGo fuel l).Nodup := by
  intro fuel
  induction fuel with
  | zero => intro l; simp [dedupFirstGo]
  | succ n ih =>
    intro l
    cases l with
    | nil => simp [dedupFirstGo]
    | cons x xs =>
      simp only [dedupFirstGo, List.nodup_cons]
      refine ⟨fun hmem => ?_, ih _⟩
      have := List.of_mem_filter (mem_of_mem_dedupFirstGo _ _ hmem)
      simp at this

theorem length_of_cleanToken {t : List Char} {u : String}
    (h : cleanToken t = some u) : 2 ≤ u.length ∧ u.length ≤ 50 := by
  unfold cleanToken at h
  by_cases hb : 2 ≤ (stripTrailing t).length ∧ (stripTrailing t).length ≤ 50
  · simp only [hb, if_true] at h
    cases h
    simpa [String.length] using hb
  · simp [hb] at h

theorem extractMentions_mem_length {s u : String}
    (hu : u ∈ extractMentions s) : 2 ≤ u.length ∧ u.length ≤ 50 := by
  have h1 : u ∈ (scanLib s.data).filterMap cleanToken :=
    mem_of_mem_dedupFirstGo _ _ hu
  rw [List.mem_filterMap] at h1
  obtain ⟨t, -, ht⟩ := h1
  exact length_of_cleanToken ht

/-- Claim C4: the library `extractMentions` yields nothing on a bare at sign
and on a length-1 candidate, yields the username on a length-2 candidate,
discards cleaned tokens longer than 50 characters, ignores an at sign that is
directly preceded by a word character (email addresses), strips trailing
punctuation before validating, and collapses repeated mentions to one entry
in first-seen order; every returned username has length between 2 and 50 and
the returned list has no duplicates. -/
theorem C4_thm :
    extractMentions "@" = [] ∧
    extractMentions "@a" = [] ∧
    extractMentions "@ab" = ["ab"] ∧
    extractMentions "user@host.com" = [] ∧
    extractMentions ("@" ++ String.mk (List.replicate 51 'a')) = [] ∧
    extractMentions ("@" ++ String.mk (List.replicate 50 'a')) =
      [String.mk (List.replicate 50 'a')] ∧
    extractMentions "@john! @sarah? @mike." = ["john", "sarah", "mike"] ∧
    extractMentions "@john @john @john" = ["john"] ∧
    extractMentions "@bob @alice @bob" = ["bob", "alice"] ∧
    (∀ s u, u ∈ extractMentions s → 2 ≤ u.length ∧ u.length ≤ 50) ∧
    (∀ s : String, (extractMentions s).Nodup) := by
  refine ⟨by decide, by decide, by decide, by decide, by decide, by decide,
    by decide, by decide, by decide, ?_, ?_⟩
  · exact fun s u hu => extractMentions_mem_length hu
  · exact fun s => nodup_dedupFirstGo _ _

/-- Concrete instantiation of the quantified parts of `C4_thm`. -/
theorem C4_witness :
    (2 ≤ ("ab" : String).length ∧ ("ab" : String).length ≤ 50) ∧
    (extractMentions "@ab @cd").Nodup := by
  constructor
  · exact C4_thm.2.2.2.2.2.2.2.2.2.1 "@ab" "ab" (by decide)
  · exact C4_thm.2.2.2.2.2.2.2.2.2.2 "@ab @cd"

/-- Claim C3 fails on the code: on the spec's own email example the
dispatcher's private extractor also captures the local part after the email's
at sign, so it is not extensionally equal to the library extractor. -/
theorem C3_counterexample :
    extractMentionsDisp "contact me at a@b.com or @sarah" = ["b", "sarah"] ∧
    extractMentions "contact me at a@b.com or @sarah" = ["sarah"] ∧
    (["b", "sarah"] : List String) ≠ ["sarah"] := by
  exact ⟨by decide, by decide, by decide⟩

/-- Claim C3 amended: the dispatcher's private `extractMentions` is not
extensionally equal to the library one.  It matches every at sign followed by
word characters, without the lookbehind (so emails contribute candidates),
without the 2..50 length bounds, and with word characters only (so dots cut
a username short); both extractors deduplicate their results. -/
theorem C3_amended_thm :
    extractMentionsDisp "contact me at a@b.com or @sarah" = ["b", "sarah"] ∧
    extractMentionsDisp "@a" = ["a"] ∧
    extractMentions "@a" = [] ∧
    extractMentionsDisp "@john.doe" = ["john"] ∧
    extractMentions "@john.doe" = ["john.doe"] ∧
    extractMentionsDisp ("@" ++ String.mk (List.replicate 51 'a')) =
      [String.mk (List.replicate 51 'a')] ∧
    extractMentionsDisp "@john @john" = ["john"] ∧
    (∀ s : String, (extractMentionsDisp s).Nodup) := by
  refine ⟨by decide, by decide, by decide, by decide, by decide, by decide,
    by decide, fun s => nodup_dedupFirstGo _ _⟩

/-- Test fixture: an enabled overnight quiet-hours window 22:00-08:00. -/
def qhOn : QuietHours :=
  { enabled := true, startTime := "22:00", endTime := "08:00", timezone := "UTC" }

/-- Test fixture: a disabled quiet-hours window. -/
def qhOff : QuietHours :=
  { enabled := false, startTime := "22:00", endTime := "08:00", timezone := "UTC" }

/-- Test fixture: global preferences with a given mentions flag and
quiet-hours window. -/
def globalFixture (m : Bool) (qh : QuietHours) : GlobalPreferences :=
  { mentions := m, directMessages := true, sound := true, desktop := true,
    email := false, mobile := true, quietHours := qh }

/-- Test fixture: a channel-preference entry for channel 5 with a given
mentions tri-state and no mute. -/
def chanFixture (ms : TriState) : ChannelPreference :=
  { channelId := 5, mentions := ms, allMessages := .inherit,
    threads := .inherit, keywords := [], mutedUntil := none }

/-- Test fixture: a preference record combining the above. -/
def prefsWith (m : Bool) (qh : QuietHours) (ms : TriState) : PreferenceRecord :=
  { userId := 1, workspaceId := 1, globalPreferences := globalFixture m qh,
    channelPreferences := [chanFixture ms] }

/-- Claim C1 fails on the code: at hour 23 of an enabled 22:00-08:00 window
the current time is inside the quiet-hours window, yet the dispatcher's
`checkNotificationPreferences` returns allow for a channel entry with
mentions enabled, because it consults quiet hours only after the channel
override, not before any other check. -/
theorem C1_counterexample :
    isInQuietHours (prefsWith true qhOn .enabled).globalPreferences.quietHours
      (23 * 60) = true ∧
    checkNotificationPreferences (some (prefsWith true qhOn .enabled))
      (some 5) 0 23 = true := by decide

/-- Claim C1 amended: the `shouldSendNotification` query does apply the
quiet-hours denial before any other check, for every preference record,
channel and category; but the dispatcher's `checkNotificationPreferences`
checks quiet hours last (and at hour granularity), after the global-mentions
flag and the channel override, so an unmuted channel entry with mentions
enabled yields allow regardless of quiet hours whenever the global mentions
flag is true. -/
theorem C1_amended_thm :
    (∀ (preferences : Option PreferenceRecord) (userId workspaceId : Nat)
       (channelId : Option Nat) (ty : NotificationType) (nowMs : Int)
       (currentTime : Nat),
       isInQuietHours
         ((preferences.getD (createDefaultPreferences userId workspaceId)).globalPreferences.quietHours)
         currentTime = true →
       shouldSendNotification preferences userId workspaceId channelId ty
         nowMs currentTime = false) ∧
    (∀ (prefs : PreferenceRecord) (cid : Nat) (cp : ChannelPreference)
       (nowMs : Int) (currentHour : Nat),
       prefs.globalPreferences.mentions = true →
       prefs.channelPreferences.find? (fun c => c.channelId == cid) = some cp →
       muteActive cp.mutedUntil nowMs = false →
       cp.mentions = .enabled →
       checkNotificationPreferences (some prefs) (some cid) nowMs
         currentHour = true) := by
  constructor
  · intro preferences userId workspaceId channelId ty nowMs currentTime h
    unfold shouldSendNotification
    simp only [h, if_true]
  · intro prefs cid cp nowMs currentHour hglobal hfind hmute hmen
    unfold checkNotificationPreferences
    simp only [hglobal, hfind, hmute, hmen, Bool.not_true, Bool.false_eq_true,
      if_false]
    rfl

/-- Concrete instantiation of `C1_amended_thm`: during the overnight window,
the query path denies at 23:00 while the dispatcher path allows through an
enabled channel override. -/
theorem C1_witness :
    shouldSendNotification (some (prefsWith true qhOn .enabled)) 1 1 (some 5)
      .mention 0 (23 * 60) = false ∧
    checkNotificationPreferences (some (prefsWith true qhOn .enabled))
      (some 5) 0 23 = true := by
  constructor
  · exact C1_amended_thm.1 (some (prefsWith true qhOn .enabled)) 1 1 (some 5)
      .mention 0 (23 * 60) (by decide)
  · exact C1_amended_thm.2 (prefsWith true qhOn .enabled) 5
      (chanFixture .enabled) 0 23 (by decide) (by decide) (by decide)
      (by decide)

/-- Claim C2 fails on the code: with global mentions false, quiet hours
disabled and an unmuted channel entry whose mentions field is enabled, the
claim requires the decision allow on both paths, and the query path does
allow (second conjunct), but the dispatcher's `checkNotificationPreferences`
denies (first conjunct): it tests the global mentions flag before the channel
override, so the enabled override never gets to beat a false global. -/
theorem C2_counterexample :
    checkNotificationPreferences (some (prefsWith false qhOff .enabled))
      (some 5) 0 720 = false ∧
    shouldSendNotification (some (prefsWith false qhOff .enabled)) 1 1
      (some 5) .mention 0 720 = true ∧
    false ≠ true := by decide

/-- Claim C2 amended: the claimed tri-state holds in full for the
`shouldSendNotification` query, for every preference record: an existing
channel entry decides by its mentions field (enabled allows even with a false
global, disabled denies even with a true global, inherit falls back to the
global flag), and a missing entry falls back to the global flag (first two
conjuncts).  For the dispatcher's `checkNotificationPreferences` the override
operates only under a true global mentions flag: a false global denies before
any channel entry is consulted (third conjunct), while with a true global an
unmuted entry with mentions disabled denies, one with mentions enabled
allows, and one with mentions inherit and quiet hours disabled allows
(remaining conjuncts). -/
theorem C2_amended_thm :
    (∀ (prefs : PreferenceRecord) (cid : Nat) (cp : ChannelPreference),
       prefs.channelPreferences.find? (fun c => c.channelId == cid) = some cp →
       shouldSendMentionNotification prefs (some cid) =
         (match cp.mentions with
          | .enabled => true
          | .disabled => false
          | .inherit => prefs.globalPreferences.mentions)) ∧
    (∀ (prefs : PreferenceRecord) (cid : Nat),
       prefs.channelPreferences.find? (fun c => c.channelId == cid) = none →
       shouldSendMentionNotification prefs (some cid) =
         prefs.globalPreferences.mentions) ∧
    (∀ (prefs : PreferenceRecord) (channelId : Option Nat) (nowMs : Int)
       (currentHour : Nat),
       prefs.globalPreferences.mentions = false →
       checkNotificationPreferences (some prefs) channelId nowMs
         currentHour = false) ∧
    (∀ (prefs : PreferenceRecord) (cid : Nat) (cp : ChannelPreference)
       (nowMs : Int) (currentHour : Nat),
       prefs.globalPreferences.mentions = true →
       prefs.channelPreferences.find? (fun c => c.channelId == cid) = some cp →
       muteActive cp.mutedUntil nowMs = false →
       cp.mentions = .disabled →
       checkNotificationPreferences (some prefs) (some cid) nowMs
         currentHour = false) ∧
    (∀ (prefs : PreferenceRecord) (cid : Nat) (cp : ChannelPreference)
       (nowMs : Int) (currentHour : Nat),
       prefs.globalPreferences.mentions = true →
       prefs.channelPreferences.find? (fun c => c.channelId == cid) = some cp →
       muteActive cp.mutedUntil nowMs = false →
       cp.mentions = .enabled →
       checkNotificationPreferences (some prefs) (some cid) nowMs
         currentHour = true) ∧
    (∀ (prefs : PreferenceRecord) (cid : Nat) (cp : ChannelPreference)
       (nowMs : Int) (currentHour : Nat),
       prefs.globalPreferences.mentions = true →
       prefs.globalPreferences.quietHours.enabled = false →
       prefs.channelPreferences.find? (fun c => c.channelId == cid) = some cp →
       muteActive cp.mutedUntil nowMs = false →
       cp.mentions = .inherit →
       checkNotificationPreferences (some prefs) (some cid) nowMs
         currentHour = true) := by
  refine ⟨?_, ?_, ?_, ?_, ?_, ?_⟩
  · intro prefs cid cp hfind
    simp only [shouldSendMentionNotification, hfind]
  · intro prefs cid hfind
    simp only [shouldSendMentionNotification, hfind]
  · intro prefs channelId nowMs currentHour hglobal
    unfold checkNotificationPreferences
    simp [hglobal]
  · intro prefs cid cp nowMs currentHour hglobal hfind hmute hmen
    unfold checkNotificationPreferences
    simp only [hglobal, hfind, hmute, hmen, Bool.not_true, Bool.false_eq_true,
      if_false]
    rfl
  · intro prefs cid cp nowMs currentHour hglobal hfind hmute hmen
    unfold checkNotificationPreferences
    simp only [hglobal, hfind, hmute, hmen, Bool.not_true, Bool.false_eq_true,
      if_false]
    rfl
  · intro prefs cid cp nowMs currentHour hglobal hqh hfind hmute hmen
    unfold checkNotificationPreferences
    simp only [hglobal, hqh, hfind, hmute, hmen, Bool.not_true,
      Bool.false_eq_true, if_false]
    rfl

/-- Concrete instantiation of `C2_amended_thm` on the fixtures: the query
path allows through an enabled override against a false global, while the
dispatcher denies on a false global, denies on a disabled override, and
allows on an enabled or inherited entry under a true global. -/
theorem C2_witness :
    shouldSendMentionNotification (prefsWith false qhOff .enabled)
      (some 5) = true ∧
    checkNotificationPreferences (some (prefsWith false qhOff .enabled))
      (some 5) 0 720 = false ∧
    checkNotificationPreferences (some (prefsWith true qhOff .disabled))
      (some 5) 0 720 = false ∧
    checkNotificationPreferences (some (prefsWith true qhOff .enabled))
      (some 5) 0 720 = true ∧
    checkNotificationPreferences (some (prefsWith true qhOff .inherit))
      (some 5) 0 720 = true := by
  refine ⟨?_, ?_, ?_, ?_, ?_⟩
  · exact C2_amended_thm.1 (prefsWith false qhOff .enabled) 5
      (chanFixture .enabled) rfl
  · exact C2_amended_thm.2.2.1 (prefsWith false qhOff .enabled) (some 5) 0 720
      rfl
  · exact C2_amended_thm.2.2.2.1 (prefsWith true qhOff .disabled) 5
      (chanFixture .disabled) 0 720 rfl rfl rfl rfl
  · exact C2_amended_thm.2.2.2.2.1 (prefsWith true qhOff .enabled) 5
      (chanFixture .enabled) 0 720 rfl rfl rfl rfl
  · exact C2_amended_thm.2.2.2.2.2 (prefsWith true qhOff .inherit) 5
      (chanFixture .inherit) 0 720 rfl rfl rfl rfl rfl

theorem processRecipients_ok_userId {a : Nat}
    {prefFails allow insertFails : Nat → Bool} {mkNotif : Nat → Notification}
    (hmk : ∀ uid, (mkNotif uid).userId = uid) :
    ∀ l ns, processRecipients (some a) prefFails allow insertFails mkNotif l =
      Except.ok ns → ∀ n ∈ ns, n.userId ≠ a := by
  intro l
  induction l with
  | nil =>
    intro ns h n hn
    unfold processRecipients at h
    cases h
    simp at hn
  | cons uid rest ih =>
    intro ns h n hn
    unfold processRecipients at h
    by_cases hsk : isAuthor (some a) uid
    · rw [if_pos hsk] at h
      exact ih ns h n hn
    · rw [if_neg hsk] at h
      by_cases hpf : prefFails uid = true
      · rw [if_pos hpf] at h
        cases h
      · rw [if_neg hpf] at h
        by_cases hal : allow uid = true
        · rw [if_pos hal] at h
          by_cases hins : insertFails uid = true
          · rw [if_pos hins] at h
            cases h
          · rw [if_neg hins] at h
            cases hrec : processRecipients (some a) prefFails allow insertFails
                mkNotif rest with
            | error e => rw [hrec] at h; cases h
            | ok ns' =>
              rw [hrec] at h
              cases h
              rcases List.mem_cons.mp hn with hn | hn
              · subst hn
                rw [hmk uid]
                intro hEq
                apply hsk
                unfold isAuthor
                simp [hEq]
              · exact ih ns' hrec n hn
        · rw [if_neg hal] at h
          exact ih ns h n hn

theorem processRecipients_no_failures (author : Option Nat)
    (allow : Nat → Bool) (mkNotif : Nat → Notification) :
    ∀ l, processRecipients author (fun _ => false) allow (fun _ => false)
        mkNotif l =
      Except.ok ((l.filter
        (fun uid => !isAuthor author uid && allow uid)).map mkNotif) := by
  intro l
  induction l with
  | nil => rfl
  | cons uid rest ih =>
    unfold processRecipients
    by_cases hsk : isAuthor author uid
    · rw [if_pos hsk, ih]
      simp [List.filter_cons, hsk]
    · rw [if_neg hsk]
      simp only [if_false, Bool.false_eq_true]
      by_cases hal : allow uid = true
      · rw [if_pos hal, ih]
        simp [List.filter_cons, hsk, hal]
      · rw [if_neg hal, ih]
        simp [List.filter_cons, hsk, hal]

/-- Test fixture: user aa with id 1. -/
def userAA : UserDoc := { uid := 1, name := some "aa", email := some "aa@x.com" }

/-- Test fixture: user bb with id 2. -/
def userBB : UserDoc := { uid := 2, name := some "bb", email := some "bb@x.com" }

/-- Claim C5 fails on the code: the dispatcher loop has no per-recipient
failure isolation.  With two resolved recipients, a preference read that
throws for the first one makes the whole `handleMentionNotifications` call
fail (first conjunct), and so does a notification insert that throws for the
first one (second conjunct), although the identical call with no failure
would have notified both recipients (third conjunct) — the second recipient
is lost and the failure is surfaced to the caller. -/
theorem C5_counterexample :
    handleMentionNotifications 100 "@aa @bb" 7 (some 5) none (some 9)
      [some userAA, some userBB] (fun _ => none) 0 12
      (fun uid => uid == 1) (fun _ => false) = Except.error () ∧
    handleMentionNotifications 100 "@aa @bb" 7 (some 5) none (some 9)
      [some userAA, some userBB] (fun _ => none) 0 12
      (fun _ => false) (fun uid => uid == 1) = Except.error () ∧
    handleMentionNotifications 100 "@aa @bb" 7 (some 5) none (some 9)
      [some userAA, some userBB] (fun _ => none) 0 12
      (fun _ => false) (fun _ => false) = Except.ok
      [{ userId := 1, messageId := 100, workspaceId := 7, channelId := some 5,
         conversationId := none, read := false },
       { userId := 2, messageId := 100, workspaceId := 7, channelId := some 5,
         conversationId := none, read := false }] := by
  exact ⟨rfl, rfl, rfl⟩

/-- Claim C5 amended: dispatch is not best-effort per recipient.  Whenever,
anywhere in the recipient list, the preference evaluation throws for a
recipient that is not skipped as the author, or the notification insert
throws for such a recipient whose preference check allows, the whole
per-recipient loop aborts with the error: no notification list is produced
and the failure is surfaced to the message-creation mutation. -/
theorem C5_amended_thm (author : Option Nat)
    (prefFails allow insertFails : Nat → Bool) (mkNotif : Nat → Notification)
    (uid : Nat) (hskip : author ≠ some uid)
    (hfail : prefFails uid = true ∨
      (allow uid = true ∧ insertFails uid = true)) :
    ∀ l : List Nat, uid ∈ l →
      processRecipients author prefFails allow insertFails mkNotif l =
        Except.error () := by
  intro l
  induction l with
  | nil =>
    intro hmem
    cases hmem
  | cons x rest ih =>
    intro hmem
    unfold processRecipients
    by_cases hsk : isAuthor author x
    · rw [if_pos hsk]
      apply ih
      rcases List.mem_cons.mp hmem with rfl | hmem'
      · exfalso
        apply hskip
        unfold isAuthor at hsk
        cases author with
        | none => simp at hsk
        | some a =>
          have ha : a = uid := by simpa using hsk
          rw [ha]
      · exact hmem'
    · rw [if_neg hsk]
      by_cases hpf : prefFails x = true
      · rw [if_pos hpf]
      · rw [if_neg hpf]
        by_cases hal : allow x = true
        · rw [if_pos hal]
          by_cases hins : insertFails x = true
          · rw [if_pos hins]
          · rw [if_neg hins]
            have hrest : uid ∈ rest := by
              rcases List.mem_cons.mp hmem with rfl | hmem'
              · exfalso
                rcases hfail with hf | ⟨ha, hi⟩
                · exact hpf hf
                · exact hins hi
              · exact hmem'
            rw [ih hrest]
        · rw [if_neg hal]
          apply ih
          rcases List.mem_cons.mp hmem with rfl | hmem'
          · exfalso
            rcases hfail with hf | ⟨ha, hi⟩
            · exact hpf hf
            · exact hal ha
          · exact hmem'

/-- Concrete instantiation of `C5_amended_thm` in the insert-failure mode,
with the failing recipient in the middle of the list. -/
theorem C5_witness :
    processRecipients (some 9) (fun _ => false) (fun _ => true)
      (fun uid => uid == 4)
      (fun uid => { userId := uid, messageId := 0, workspaceId := 0,
                    channelId := none, conversationId := none,
                    read := false }) [3, 4, 5] = Except.error () :=
  C5_amended_thm (some 9) (fun _ => false) (fun _ => true)
    (fun uid => uid == 4)
    (fun uid => { userId := uid, messageId := 0, workspaceId := 0,
                  channelId := none, conversationId := none, read := false })
    4 (by decide) (Or.inr ⟨rfl, rfl⟩) [3, 4, 5] (by decide)

/-- Claim C6: the dispatcher never creates a notification whose recipient is
the message author, whatever the failure behaviour of the store (first
conjunct, over every outcome of the loop); and in a failure-free run the
notified recipients are exactly the resolved non-author recipients whose
preference check allows, so every other resolved recipient is still
evaluated (second conjunct). -/
theorem C6_thm :
    (∀ (messageId : Nat) (messageBody : String) (workspaceId : Nat)
       (channelId conversationId : Option Nat) (a : Nat)
       (users : List (Option UserDoc))
       (prefsOf : Nat → Option PreferenceRecord) (nowMs : Int)
       (currentHour : Nat) (prefFails insertFails : Nat → Bool)
       (ns : List Notification),
       handleMentionNotifications messageId messageBody workspaceId channelId
         conversationId (some a) users prefsOf nowMs currentHour prefFails
         insertFails = Except.ok ns →
       ∀ n ∈ ns, n.userId ≠ a) ∧
    (∀ (messageId : Nat) (messageBody : String) (workspaceId : Nat)
       (channelId conversationId : Option Nat) (a : Nat)
       (users : List (Option UserDoc))
       (prefsOf : Nat → Option PreferenceRecord) (nowMs : Int)
       (currentHour : Nat) (ns : List Notification),
       handleMentionNotifications messageId messageBody workspaceId channelId
         conversationId (some a) users prefsOf nowMs currentHour
         (fun _ => false) (fun _ => false) = Except.ok ns →
       ns.map (fun n => n.userId) =
         (getMentionedUsers users (extractMentionsDisp messageBody)).filter
           (fun uid => !isAuthor (some a) uid &&
             checkNotificationPreferences (prefsOf uid) channelId nowMs
               currentHour)) := by
  constructor
  · intro messageId messageBody workspaceId channelId conversationId a users
      prefsOf nowMs currentHour prefFails insertFails ns h n hn
    unfold handleMentionNotifications at h
    by_cases hempty : (extractMentionsDisp messageBody).isEmpty
    · rw [if_pos hempty] at h
      cases h
      simp at hn
    · rw [if_neg hempty] at h
      exact processRecipients_ok_userId (fun _ => rfl) _ ns h n hn
  · intro messageId messageBody workspaceId channelId conversationId a users
      prefsOf nowMs currentHour ns h
    unfold handleMentionNotifications at h
    by_cases hempty : (extractMentionsDisp messageBody).isEmpty
    · rw [if_pos hempty] at h
      cases h
      unfold getMentionedUsers
      rw [List.isEmpty_iff] at hempty
      simp [hempty]
    · rw [if_neg hempty] at h
      rw [processRecipients_no_failures] at h
      cases h
      rw [List.map_map]
      exact List.map_id'' (fun x => rfl) _

/-- Concrete instantiation of `C6_thm`: the author (user aa, id 1) mentions
both handles, and only user bb (id 2) is notified. -/
theorem C6_witness :
    ({ userId := 2, messageId := 100, workspaceId := 7, channelId := some 5,
       conversationId := none, read := false } : Notification).userId ≠ 1 :=
  C6_thm.1 100 "@aa @bb" 7 (some 5) none 1 [some userAA, some userBB]
    (fun _ => none) 0 12 (fun _ => false) (fun _ => false)
    [{ userId := 2, messageId := 100, workspaceId := 7, channelId := some 5,
       conversationId := none, read := false }] rfl _ (List.mem_singleton.mpr rfl)

/-- Test fixture: a member whose profile name is John (capital J) and whose
email local part is john. -/
def userJohn : UserDoc := { uid := 3, name := some "John", email := some "john@x.com" }

/-- Test fixture: a member whose profile name is Sarah Smith and whose email
local part is sarah. -/
def userSarah : UserDoc :=
  { uid := 4, name := some "Sarah Smith", email := some "sarah@x.com" }

/-- Claim C7 fails on the code: the mention username john differs from the
member's profile name John only in letter case (and equals the member's email
local part exactly), yet `getMentionedUsers` resolves nobody, because it
compares the mention for exact case-sensitive equality with the profile name
only. -/
theorem C7_counterexample :
    getMentionedUsers [some userJohn] ["john"] = [] ∧
    ([] : List Nat) ≠ [3] := by decide

/-- Claim C7 amended: a mention resolves to a member exactly when the
member's user document carries a nonempty profile name that is *exactly*
(case-sensitively) equal to one of the extracted usernames; the email local
part (the derived handle) is never consulted and case-insensitive matching
does not happen. -/
theorem C7_amended_thm :
    (∀ (users : List (Option UserDoc)) (usernames : List String) (uid : Nat),
       uid ∈ getMentionedUsers users usernames ↔
         ∃ d : UserDoc, some d ∈ users ∧ d.uid = uid ∧
           ∃ nm, d.name = some nm ∧ nm ≠ "" ∧ nm ∈ usernames) ∧
    getMentionedUsers [some userJohn] ["John"] = [3] ∧
    getMentionedUsers [some userSarah] ["sarah"] = [] := by
  refine ⟨?_, by decide, by decide⟩
  intro users usernames uid
  unfold getMentionedUsers
  by_cases hempty : usernames.isEmpty
  · rw [if_pos hempty]
    rw [List.isEmpty_iff] at hempty
    subst hempty
    simp
  · rw [if_neg hempty]
    rw [List.mem_filterMap]
    constructor
    · rintro ⟨userOpt, hmem, hf⟩
      rcases userOpt with _ | d
      · simp [resolveOne] at hf
      · rcases hname : d.name with _ | nm
        · simp only [resolveOne, hname] at hf
          cases hf
        · simp only [resolveOne, hname] at hf
          by_cases hcond : (!(nm == "") && usernames.contains nm) = true
          · rw [if_pos hcond] at hf
            cases hf
            refine ⟨d, hmem, rfl, nm, hname, ?_, ?_⟩
            · have h2 := (Bool.and_eq_true _ _).mp hcond
              simpa using h2.1
            · have h2 := (Bool.and_eq_true _ _).mp hcond
              exact List.mem_of_elem_eq_true h2.2
          · rw [if_neg hcond] at hf
            cases hf
    · rintro ⟨d, hmem, rfl, nm, hname, hne, hmemn⟩
      refine ⟨some d, hmem, ?_⟩
      simp only [resolveOne, hname]
      rw [if_pos]
      rw [Bool.and_eq_true]
      constructor
      · simpa using hne
      · exact List.elem_eq_true_of_mem hmemn

/-- Concrete instantiation of `C7_amended_thm`: membership of user 3 when the
mention matches the name exactly. -/
theorem C7_witness :
    3 ∈ getMentionedUsers [some userJohn] ["John"] :=
  (C7_amended_thm.1 [some userJohn] ["John"] 3).mpr
    ⟨userJohn, List.mem_singleton.mpr rfl, rfl, "John", rfl, by decide,
      List.mem_singleton.mpr rfl⟩

/-- Test fixture: an existing channel-preference entry for channel 5 with an
enabled mentions override, stored keywords and a stored mute. -/
def entryEnabledMuted : ChannelPreference :=
  { channelId := 5, mentions := .enabled, allMessages := .enabled,
    threads := .inherit, keywords := ["urgent"], mutedUntil := some 1000 }

/-- Test fixture: an update that names only the allMessages field. -/
def argsOnlyAllMessages : UpdateChannelArgs :=
  { mentions := none, allMessages := some .enabled, threads := none,
    keywords := none, mutedUntil := none }

/-- Test fixture: an update that passes an explicit null mutedUntil and
nothing else. -/
def argsNullMute : UpdateChannelArgs :=
  { mentions := none, allMessages := none, threads := none,
    keywords := none, mutedUntil := some none }

/-- Claim C8 fails on the code: updating channel 5 while naming only
allMessages resets the entry's unnamed fields — mentions falls from enabled
back to the default inherit and the stored keywords are wiped — instead of
keeping their previous values. -/
theorem C8_counterexample :
    updateChannelPrefs 5 argsOnlyAllMessages [entryEnabledMuted] =
      [{ channelId := 5, mentions := .inherit, allMessages := .enabled,
         threads := .enabled, keywords := [], mutedUntil := some 1000 }] ∧
    TriState.inherit ≠ TriState.enabled ∧
    ([] : List String) ≠ ["urgent"] := by decide

theorem mem_updateChannelPrefs {x : ChannelPreference} (cid : Nat)
    (args : UpdateChannelArgs) :
    ∀ l, x ∈ updateChannelPrefs cid args l → x ∈ l ∨ x.channelId = cid := by
  intro l
  induction l with
  | nil =>
    intro h
    unfold updateChannelPrefs at h
    rcases List.mem_singleton.mp h with rfl
    right
    rfl
  | cons cp rest ih =>
    intro h
    unfold updateChannelPrefs at h
    by_cases hc : cp.channelId == cid
    · rw [if_pos hc] at h
      rcases List.mem_cons.mp h with h | h
      · right
        rw [h]
        rfl
      · left
        exact List.mem_cons_of_mem _ h
    · rw [if_neg hc] at h
      rcases List.mem_cons.mp h with h | h
      · left
        rw [h]
        exact List.mem_cons_self _ _
      · rcases ih h with h | h
        · left
          exact List.mem_cons_of_mem _ h
        · right
          exact h

/-- Claim C8 amended: an update to an existing entry is not a field-level
merge.  The first conjunct gives the exact result: every tri-state and
keyword field is replaced by the update's value or by a fixed default
(inherit, disabled, enabled, the empty keyword list) when not named, and only
mutedUntil survives from the existing entry (unless the update carries a
fresh timestamp).  The second conjunct is the part of the claim that does
hold: the update keeps at most one entry per channelId. -/
theorem C8_amended_thm :
    (∀ (e : ChannelPreference) (cid : Nat) (args : UpdateChannelArgs)
       (rest : List ChannelPreference), e.channelId = cid →
       updateChannelPrefs cid args (e :: rest) =
         { channelId := cid
           mentions := args.mentions.getD .inherit
           allMessages := args.allMessages.getD .disabled
           threads := args.threads.getD .enabled
           keywords := args.keywords.getD []
           mutedUntil :=
             match args.mutedUntil with
             | some (some t) => some t
             | _ => e.mutedUntil } :: rest) ∧
    (∀ (cid : Nat) (args : UpdateChannelArgs) (l : List ChannelPreference),
       l.Pairwise (fun a b => a.channelId ≠ b.channelId) →
       (updateChannelPrefs cid args l).Pairwise
         (fun a b => a.channelId ≠ b.channelId)) := by
  constructor
  · intro e cid args rest hcid
    unfold updateChannelPrefs
    rw [if_pos (by simp [hcid])]
    rfl
  · intro cid args l
    induction l with
    | nil =>
      intro _
      simp [updateChannelPrefs]
    | cons cp rest ih =>
      intro hp
      rw [List.pairwise_cons] at hp
      unfold updateChannelPrefs
      by_cases hc : cp.channelId == cid
      · rw [if_pos hc]
        rw [List.pairwise_cons]
        refine ⟨fun b hb => ?_, hp.2⟩
        have : cp.channelId = cid := by simpa using hc
        rw [show (applyChannelUpdate cp cid args).channelId = cid from rfl]
        rw [← this]
        exact hp.1 b hb
      · rw [if_neg hc]
        rw [List.pairwise_cons]
        refine ⟨fun b hb => ?_, ih hp.2⟩
        rcases mem_updateChannelPrefs cid args rest hb with h | h
        · exact hp.1 b h
        · rw [h]
          simpa using hc

/-- Concrete instantiation of `C8_amended_thm`. -/
theorem C8_witness :
    (updateChannelPrefs 5 argsOnlyAllMessages [entryEnabledMuted] =
      [{ channelId := 5
         mentions := argsOnlyAllMessages.mentions.getD .inherit
         allMessages := argsOnlyAllMessages.allMessages.getD .disabled
         threads := argsOnlyAllMessages.threads.getD .enabled
         keywords := argsOnlyAllMessages.keywords.getD []
         mutedUntil :=
           match argsOnlyAllMessages.mutedUntil with
           | some (some t) => some t
           | _ => entryEnabledMuted.mutedUntil }]) ∧
    (updateChannelPrefs 5 argsOnlyAllMessages [entryEnabledMuted]).Pairwise
      (fun a b => a.channelId ≠ b.channelId) := by
  constructor
  · exact C8_amended_thm.1 entryEnabledMuted 5 argsOnlyAllMessages [] rfl
  · exact C8_amended_thm.2 5 argsOnlyAllMessages [entryEnabledMuted]
      (by decide)

/-- Claim C10: passing an explicit null mutedUntil to `updateChannel` leaves
the stored mute untouched — the merged entry keeps the existing mutedUntil —
and no update can ever remove a stored mutedUntil value: the merged entry's
mutedUntil is always present when the existing one was (it can only be kept
or overwritten with a new timestamp). -/
theorem C10_thm (e : ChannelPreference) (cid : Nat)
    (args : UpdateChannelArgs) (rest : List ChannelPreference)
    (hcid : e.channelId = cid) (hnull : args.mutedUntil = some none) :
    updateChannelPrefs cid args (e :: rest) =
      applyChannelUpdate e cid args :: rest ∧
    (applyChannelUpdate e cid args).mutedUntil = e.mutedUntil ∧
    (∀ args2 : UpdateChannelArgs, e.mutedUntil.isSome →
      ((applyChannelUpdate e cid args2).mutedUntil).isSome) := by
  refine ⟨?_, ?_, ?_⟩
  · unfold updateChannelPrefs
    rw [if_pos (by simp [hcid])]
  · unfold applyChannelUpdate
    rw [hnull]
  · intro args2 hsome
    unfold applyChannelUpdate
    rcases hm : args2.mutedUntil with _ | mv
    · simpa using hsome
    · rcases mv with _ | t
      · simpa using hsome
      · simp

/-- Concrete instantiation of `C10_thm`: the entry muted until 1000 stays
muted until 1000 after an update passing null. -/
theorem C10_witness :
    (updateChannelPrefs 5 argsNullMute [entryEnabledMuted] =
      applyChannelUpdate entryEnabledMuted 5 argsNullMute :: []) ∧
    (applyChannelUpdate entryEnabledMuted 5 argsNullMute).mutedUntil =
      entryEnabledMuted.mutedUntil ∧
    (∀ args2 : UpdateChannelArgs, entryEnabledMuted.mutedUntil.isSome →
      ((applyChannelUpdate entryEnabledMuted 5 args2).mutedUntil).isSome) :=
  C10_thm entryEnabledMuted 5 argsNullMute [] rfl rfl

/-- Test fixture: a member named alice. -/
def userAlice : UserDoc :=
  { uid := 6, name := some "alice", email := some "alice@example.com" }

/-- Claim C9 fails on the code: the implemented minimum length check is
`trim().length < 1`, not the claimed 2.  The one-character search term a
(trimmed length 1, under the claimed minimum of 2) scans the membership and
returns the matching member instead of the claimed empty list. -/
theorem C9_counterexample :
    getByUsername true "a" (some 10) [some userAlice] = [userAlice] ∧
    [userAlice] ≠ ([] : List UserDoc) := by decide

/-- Claim C9 amended: the member search short-circuits to the empty list,
without scanning the membership, only for a search term whose trimmed length
is under 1 — that is, a term that trims to the empty string — (first
conjunct, for every term, limit and membership) and for a caller who is not
a member of the workspace (second conjunct); a term of trimmed length 1
already scans the membership and can return matches (third conjunct), so the
claimed minimum of 2 is not enforced (fourth conjunct: a whitespace-only
term is the only kind under length 2 that yields the empty list). -/
theorem C9_amended_thm :
    (∀ (searchTerm : String) (limit : Option Nat)
       (users : List (Option UserDoc)),
       (trimList searchTerm.data).length < 1 →
       getByUsername true searchTerm limit users = []) ∧
    (∀ (searchTerm : String) (limit : Option Nat)
       (users : List (Option UserDoc)),
       getByUsername false searchTerm limit users = []) ∧
    getByUsername true "a" (some 10) [some userAlice] = [userAlice] ∧
    getByUsername true "   " (some 10) [some userAlice] = [] := by
  refine ⟨?_, ?_, by decide, by decide⟩
  · intro searchTerm limit users h
    unfold getByUsername
    rw [if_neg (by simp)]
    rw [if_pos h]
  · intro searchTerm limit users
    unfold getByUsername
    rw [if_pos (by simp)]

/-- Concrete instantiation of `C9_amended_thm`: a term of two blanks trims
to the empty string and yields the empty list. -/
theorem C9_witness :
    getByUsername true "  " (some 3) [some userAlice] = [] :=
  C9_amended_thm.1 "  " (some 3) [some userAlice] (by decide)
end ChatCore
